import Mathlib

/-!
Verification of the stockbox price-summary pipeline.

This file gives a shallow embedding of the three Python modules of the
repository (vndirect.py, vnstock_helpers.py, utils.py) and proves or
refutes the specification's claims about them.  Machine floats are
modelled by rationals, DataFrames by lists of rows or association lists
of columns, and effectful code by explicit traces of effect values.
-/

namespace Stockbox

/-! ### Display formatting (utils.py: format_milion, format_thousand, format_df) -/

/-- Rounding of a rational to the nearest integer, ties to even, as Python's
float formatting does for exactly representable values. -/
def roundHalfEven (x : ℚ) : ℤ :=
  let f := ⌊x⌋
  let r := x - f
  if r < 1/2 then f
  else if r > 1/2 then f + 1
  else if f % 2 = 0 then f else f + 1

/-- Rendering of a rational with exactly one decimal digit, as Python's
format specifier .1f produces for nonnegative values. -/
def fmtFixed1 (v : ℚ) : String :=
  let n := roundHalfEven (v * 10)
  if n < 0 then "-" ++ toString ((-n).toNat / 10) ++ "." ++ toString ((-n).toNat % 10)
  else toString (n.toNat / 10) ++ "." ++ toString (n.toNat % 10)

/-- utils.format_milion: dollar string with one decimal and an M suffix. -/
def format_milion (val : ℚ) : String := "$" ++ fmtFixed1 val ++ "M"

/-- utils.format_thousand: dollar string with one decimal and a K suffix. -/
def format_thousand (val : ℚ) : String := "$" ++ fmtFixed1 val ++ "K"

/-- utils.format_df, Volume column step: the raw volume is divided by 1e6 and
passed to format_milion. -/
def displayVolume (v : ℚ) : String := format_milion (v / 1000000)

/-- utils.format_df, Price column step: the Adj Close value is passed to
format_thousand unscaled. -/
def displayPrice (p : ℚ) : String := format_thousand p

/-! ### Client construction (vndirect.py: VNDirectClient.__init__ / _validate_inputs)

The constructor performs, in order: attribute assignment (pure), creation of
the cache directory when caching is on and the directory does not exist
(filesystem I/O), and then input validation which may raise ValueError.
We model the run of the constructor as the list of I/O effects it performs
together with the validation outcome (some message = a raised ValueError). -/

/-- Filesystem effects the constructor can perform before validation runs. -/
inductive InitEff where
  | mkdirCache
deriving DecidableEq

/-- vndirect.VNDirectClient._validate_inputs: the first failing check wins;
none means no exception.  (The all-strings check is enforced by typing.) -/
def validate_inputs (tickers : List String) (size : ℤ) (cache_expiry : ℤ) : Option String :=
  if tickers = [] then some "tickers list cannot be empty"
  else if !(tickers.all fun t => t.length = 3) then some "All tickers must be 3 characters in length"
  else if size ≤ 0 then some "size must be positive"
  else if cache_expiry < 0 then some "cache_expiry must be non-negative"
  else none

/-- vndirect.VNDirectClient.__init__: cache-directory creation happens first
(when use_cache is set and the directory is absent on disk), validation runs
after it.  Returns the effect trace and the raised validation error, if any. -/
def clientInit (tickers : List String) (size cache_expiry : ℤ)
    (use_cache dirOnDisk : Bool) : List InitEff × Option String :=
  let effs := if use_cache && !dirOnDisk then [InitEff.mkdirCache] else []
  (effs, validate_inputs tickers size cache_expiry)

/-! ### Chunk merging (vnstock_helpers.py: get_stock_data_vnstock, merge step)

After fetching yearly chunks for one ticker the code concatenates them,
drops duplicate (Symbol, Date) rows keeping the first occurrence
(pandas drop_duplicates), and sorts by Date. -/

/-- Row of a fetched chunk: symbol and date form the de-duplication key,
payload stands for the remaining OHLCV fields. -/
structure DRow where
  symbol : ℕ
  date : ℕ
  payload : ℚ
deriving DecidableEq

/-- De-duplication key of a row, the (Symbol, Date) pair. -/
def dkey (r : DRow) : ℕ × ℕ := (r.symbol, r.date)

/-- Worker for drop_duplicates: keep the first row for each key. -/
def dropDupGo (seen : List (ℕ × ℕ)) : List DRow → List DRow
  | [] => []
  | r :: rest =>
    if dkey r ∈ seen then dropDupGo seen rest
    else r :: dropDupGo (dkey r :: seen) rest

/-- pandas drop_duplicates on the subset (Symbol, Date), keeping first rows. -/
def drop_duplicates (l : List DRow) : List DRow := dropDupGo [] l

/-- pandas sort_values on the Date column. -/
def sort_values_date (l : List DRow) : List DRow :=
  l.mergeSort (fun a b => decide (a.date ≤ b.date))

/-- The merge step of get_stock_data_vnstock: concatenate the chunk list,
drop duplicate (Symbol, Date) rows, sort by Date. -/
def mergeChunks (chunks : List (List DRow)) : List DRow :=
  sort_values_date (drop_duplicates chunks.flatten)

/-! Helper lemmas about de-duplication. -/

theorem dropDupGo_keys_nodup (l : List DRow) : ∀ seen : List (ℕ × ℕ),
    ((dropDupGo seen l).map dkey).Nodup ∧
    (∀ k ∈ (dropDupGo seen l).map dkey, k ∉ seen) := by
  induction l with
  | nil => intro seen; simp [dropDupGo]
  | cons r rest ih =>
    intro seen
    by_cases h : dkey r ∈ seen
    · simpa [dropDupGo, h] using ih seen
    · have h2 := ih (dkey r :: seen)
      constructor
      · simp only [dropDupGo, h, if_false, List.map_cons, List.nodup_cons]
        refine ⟨fun hmem => ?_, h2.1⟩
        exact (h2.2 _ hmem) (by simp)
      · intro k hk
        simp only [dropDupGo, h, if_false, List.map_cons, List.mem_cons] at hk
        rcases hk with hk | hk
        · simpa [hk] using h
        · intro hks
          exact (h2.2 _ hk) (by simp [hks])

theorem dropDupGo_eq_self (l : List DRow) : ∀ seen : List (ℕ × ℕ),
    (l.map dkey).Nodup → (∀ k ∈ l.map dkey, k ∉ seen) → dropDupGo seen l = l := by
  induction l with
  | nil => intro seen _ _; simp [dropDupGo]
  | cons r rest ih =>
    intro seen hnd hdis
    rw [List.map_cons, List.nodup_cons] at hnd
    have hr : dkey r ∉ seen := hdis _ (by simp)
    simp only [dropDupGo, hr, if_false]
    congr 1
    apply ih
    · exact hnd.2
    · intro k hk
      simp only [List.mem_cons, not_or]
      constructor
      · intro hkr
        exact hnd.1 (hkr ▸ hk)
      · exact hdis _ (by simp [hk])

theorem mergeChunks_perm_dedup (chunks : List (List DRow)) :
    (mergeChunks chunks).Perm (drop_duplicates chunks.flatten) := by
  exact List.mergeSort_perm _ _

theorem mergeChunks_keys_nodup (chunks : List (List DRow)) :
    ((mergeChunks chunks).map dkey).Nodup := by
  have h1 := (dropDupGo_keys_nodup chunks.flatten []).1
  have hperm := (mergeChunks_perm_dedup chunks).map dkey
  exact h1.perm hperm.symm

/-! ### Batch retrieval (vndirect.py: VNDirectClient.get_data)

A per-ticker fetch yields a pair (data, error) mirroring the last two slots of
the triple returned by _fetch_ticker_data.  get_data appends a ticker's
DataFrame to all_data when the data slot is truthy (a non-None, non-empty
list) and otherwise records (ticker, error) in failed_tickers; it raises
ValueError when all_data stays empty and concatenates otherwise.  The
parallel branch maps the fetch over the tickers first (executor.map yields
results in input order); the sequential branch fetches inside the loop. -/

/-- Outcome of a single per-ticker fetch: the data and error slots. -/
abbrev FetchOut (ρ : Type) := Option (List ρ) × Option String

/-- Python truthiness of the data slot: a non-None, non-empty list. -/
def truthyData {ρ : Type} : Option (List ρ) → Bool
  | some l => !l.isEmpty
  | none => false

/-- Loop body of get_data: accumulate a success or record a failure. -/
def processResult {τ ρ : Type} (acc : List (List ρ) × List (τ × Option String))
    (t : τ) (res : FetchOut ρ) : List (List ρ) × List (τ × Option String) :=
  if truthyData res.1 then (acc.1 ++ [res.1.getD []], acc.2)
  else (acc.1, acc.2 ++ [(t, res.2)])

/-- vndirect.VNDirectClient.get_data over a pure per-ticker outcome map. -/
def get_data {τ ρ : Type} (fetch : τ → FetchOut ρ) (tickers : List τ)
    (use_parallel : Bool) : Except String (List ρ × List (τ × Option String)) :=
  let acc :=
    if use_parallel && decide (tickers.length > 1) then
      (tickers.map (fun t => (t, fetch t))).foldl (fun acc p => processResult acc p.1 p.2) ([], [])
    else
      tickers.foldl (fun acc t => processResult acc t (fetch t)) ([], [])
  if acc.1.isEmpty then Except.error "Could not retrieve data for any ticker"
  else Except.ok (acc.1.flatten, acc.2)

/-! ### Per-ticker fetch with cache and retries
(vndirect.py: _is_cache_valid, _load_from_cache, _fetch_ticker_data)

One HTTP attempt either raises a requests.RequestException, raises some other
exception, or yields a response with a status code whose body then parses to
a data list or raises while parsing.  The loop runs max_retries attempts;
retries sleep only when another attempt remains.  The trace records the data
and error slots of the returned triple plus how many network calls, backoff
sleeps and cache writes happened. -/

/-- Result of the HTTP request of one attempt. -/
inductive NetResult (ρ : Type) where
  | reqErr (msg : String)
  | otherExn (msg : String)
  | resp (status : ℤ) (body : Except String (List ρ))

/-- Observable outcome of a per-ticker fetch: data slot, error slot, and
counters for network calls, backoff sleeps and cache writes. -/
structure FetchTrace (ρ : Type) where
  data : Option (List ρ)
  err : Option String
  netCalls : ℕ
  sleeps : ℕ
  cacheWrites : ℕ
deriving DecidableEq

/-- Retry loop of _fetch_ticker_data.  fuel is the number of attempts left
(initially max_retries); a is the current attempt index; the Python guard
attempt less than max_retries - 1 is fuel at least 2.  When fuel runs out the
Python loop falls off the end. -/
def fetchLoop {ρ : Type} (net : ℕ → NetResult ρ) : ℕ → ℕ → FetchTrace ρ
  | 0, _ => ⟨none, none, 0, 0, 0⟩
  | fuel+1, a =>
    match net a with
    | .resp st body =>
      if st ≠ 200 then
        if 1 ≤ fuel then
          let rest := fetchLoop net fuel (a+1)
          ⟨rest.data, rest.err, rest.netCalls + 1, rest.sleeps + 1, rest.cacheWrites⟩
        else ⟨none, some ("HTTP error " ++ toString st), 1, 0, 0⟩
      else
        match body with
        | .error m => ⟨none, some ("Unexpected error: " ++ m), 1, 0, 0⟩
        | .ok data =>
          if data.isEmpty then ⟨none, some "No data available", 1, 0, 0⟩
          else ⟨some data, none, 1, 0, 1⟩
    | .reqErr m =>
      if 1 ≤ fuel then
        let rest := fetchLoop net fuel (a+1)
        ⟨rest.data, rest.err, rest.netCalls + 1, rest.sleeps + 1, rest.cacheWrites⟩
      else ⟨none, some ("Request error: " ++ m), 1, 0, 0⟩
    | .otherExn m => ⟨none, some ("Unexpected error: " ++ m), 1, 0, 0⟩

/-- vndirect.VNDirectClient._is_cache_valid.  Times are rationals in seconds;
cache_expiry is in hours, hence the factor 3600. -/
def is_cache_valid (cache_expiry : ℕ) (now mtime : ℚ) (present : Bool) : Bool :=
  if !present then false
  else if cache_expiry = 0 then true
  else decide (now - (cache_expiry : ℚ) * 3600 < mtime)

/-- vndirect.VNDirectClient._load_from_cache.  content is the parse of the
cache file; none models a read or JSON failure, swallowed as a miss. -/
def load_from_cache {ρ : Type} (use_cache : Bool) (cache_expiry : ℕ) (now mtime : ℚ)
    (present : Bool) (content : Option (List ρ)) : Option (List ρ) :=
  if !use_cache then none
  else if !is_cache_valid cache_expiry now mtime present then none
  else content

/-- vndirect.VNDirectClient._fetch_ticker_data: a cache hit returns at once,
otherwise the retry loop runs. -/
def fetch_ticker_data {ρ : Type} (use_cache : Bool) (cache_expiry : ℕ) (now mtime : ℚ)
    (present : Bool) (content : Option (List ρ)) (max_retries : ℕ)
    (net : ℕ → NetResult ρ) : FetchTrace ρ :=
  match load_from_cache use_cache cache_expiry now mtime present content with
  | some l => ⟨some l, none, 0, 0, 0⟩
  | none => fetchLoop net max_retries 0

/-! ### Claim theorems for C4, C6, C9 -/

theorem fmtFixed1_eq (v : ℚ) (n : ℤ) (h : roundHalfEven (v * 10) = n) (h0 : 0 ≤ n) :
    fmtFixed1 v = toString (n.toNat / 10) ++ "." ++ toString (n.toNat % 10) := by
  unfold fmtFixed1
  rw [h, if_neg (by omega)]

/-- C9: the display formatter maps a Volume value of 2500000 to the string
"$2.5M" after scaling to millions, and a Price (Adj Close) value of 12.345
to the string "$12.3K" under the thousands formatter. -/
theorem display_format_examples :
    displayVolume 2500000 = "$2.5M" ∧ displayPrice (12345/1000) = "$12.3K" := by
  constructor
  · have h : roundHalfEven ((2500000 : ℚ)/1000000 * 10) = 25 := by
      have e : (2500000 : ℚ)/1000000 * 10 = 25 := by norm_num
      rw [roundHalfEven, e]
      have hf : ⌊(25 : ℚ)⌋ = 25 := by norm_num
      rw [hf]
      norm_num
    unfold displayVolume format_milion
    rw [fmtFixed1_eq _ 25 h (by norm_num)]
    decide
  · have h : roundHalfEven ((12345 : ℚ)/1000 * 10) = 123 := by
      have e : (12345 : ℚ)/1000 * 10 = 2469/20 := by norm_num
      rw [roundHalfEven, e]
      have hf : ⌊(2469/20 : ℚ)⌋ = 123 := by norm_num [Int.floor_eq_iff]
      rw [hf]
      norm_num
    unfold displayPrice format_thousand
    rw [fmtFixed1_eq _ 123 h (by norm_num)]
    decide

/-- C4 counterexample: constructing the client with an empty ticker list while
use_cache is on and the cache directory is absent raises the validation error,
but only after the cache directory has been created — an I/O effect precedes
the synchronous validation failure, contradicting the claim that validation
fails before any I/O. -/
theorem init_mkdir_precedes_validation :
    clientInit [] 125 24 true false =
      ([InitEff.mkdirCache], some "tickers list cannot be empty") := by
  decide

/-- C4 (amended): constructing the client with an empty ticker list, a ticker
whose length is not 3, a non-positive size, or a negative cache_expiry raises
a validation error synchronously, before any network I/O; the only I/O that
can precede the raise is creation of the cache directory, performed exactly
when use_cache is set and the directory does not exist. -/
theorem init_validation_amended (tickers : List String) (size cache_expiry : ℤ)
    (use_cache dirOnDisk : Bool) :
    ((clientInit tickers size cache_expiry use_cache dirOnDisk).2 ≠ none ↔
      (tickers = [] ∨ (∃ t ∈ tickers, t.length ≠ 3) ∨ size ≤ 0 ∨ cache_expiry < 0)) ∧
    (clientInit tickers size cache_expiry use_cache dirOnDisk).1 =
      (if use_cache ∧ ¬dirOnDisk then [InitEff.mkdirCache] else []) := by
  constructor
  · unfold clientInit validate_inputs
    split_ifs with h1 h2 h3 h4 <;> simp_all [List.all_eq_true]
  · unfold clientInit
    by_cases hu : use_cache <;> by_cases hd : dirOnDisk <;> simp [hu, hd]

/-- C6: the chunked-fetch merge step (concatenate chunks, drop duplicates on
the (Symbol, Date) key, sort by Date) is idempotent up to row order: merging
the output of a previous merge of the same chunk list yields the same row
multiset (hence the same row set) as merging once. -/
theorem mergeChunks_idempotent (chunks : List (List DRow)) :
    (mergeChunks [mergeChunks chunks]).Perm (mergeChunks chunks) := by
  have hflat : ([mergeChunks chunks] : List (List DRow)).flatten = mergeChunks chunks := by
    simp
  have hdd : drop_duplicates (mergeChunks chunks) = mergeChunks chunks := by
    unfold drop_duplicates
    exact dropDupGo_eq_self _ [] (mergeChunks_keys_nodup chunks) (by simp)
  have h1 : mergeChunks [mergeChunks chunks] = sort_values_date (mergeChunks chunks) := by
    show sort_values_date (drop_duplicates ([mergeChunks chunks] : List (List DRow)).flatten) = _
    rw [hflat, hdd]
  rw [h1]
  unfold sort_values_date
  exact List.mergeSort_perm _ _

/-! ### Claim theorems for C2, C3, C7, C10 -/

theorem foldl_processResult {τ ρ : Type} (fetch : τ → FetchOut ρ) (tickers : List τ) :
    ∀ acc : List (List ρ) × List (τ × Option String),
    tickers.foldl (fun acc t => processResult acc t (fetch t)) acc =
      (acc.1 ++ (tickers.filter fun t => truthyData (fetch t).1).map (fun t => (fetch t).1.getD []),
       acc.2 ++ (tickers.filter fun t => !truthyData (fetch t).1).map (fun t => (t, (fetch t).2))) := by
  induction tickers with
  | nil => intro acc; simp
  | cons t ts ih =>
    intro acc
    rw [List.foldl_cons, ih]
    by_cases h : truthyData (fetch t).1 = true <;>
      simp [processResult, h, List.append_assoc]

theorem get_data_as_filters {τ ρ : Type} (fetch : τ → FetchOut ρ) (tickers : List τ)
    (q : Bool) :
    get_data fetch tickers q =
      (if ((tickers.filter fun t => truthyData (fetch t).1).map
            (fun t => (fetch t).1.getD [])).isEmpty then
        Except.error "Could not retrieve data for any ticker"
      else
        Except.ok
          (((tickers.filter fun t => truthyData (fetch t).1).map
              (fun t => (fetch t).1.getD [])).flatten,
            (tickers.filter fun t => !truthyData (fetch t).1).map
              (fun t => (t, (fetch t).2)))) := by
  unfold get_data
  rw [List.foldl_map]
  by_cases h : (q && decide (tickers.length > 1)) = true <;>
    simp only [h, if_true, if_false, Bool.false_eq_true, foldl_processResult,
      List.nil_append]

/-- C7: for every ticker list and every assignment of per-ticker fetch
outcomes, get_data with use_parallel set produces the same combined table,
failure list and raised-error outcome as get_data without it; the embedding
does not model timing or log ordering, where the two modes may differ. -/
theorem get_data_parallel_eq_sequential {τ ρ : Type} (fetch : τ → FetchOut ρ)
    (tickers : List τ) :
    get_data fetch tickers true = get_data fetch tickers false := by
  rw [get_data_as_filters, get_data_as_filters]

/-- C2: whenever at least one per-ticker fetch succeeds (returns truthy data),
get_data returns without raising a combined table consisting exactly of the
successful tickers' data, in ticker order, together with the failed tickers
recorded as pairs of ticker and error reason; and it raises the no-data error
if and only if every ticker failed. -/
theorem get_data_success_failure {τ ρ : Type} (fetch : τ → FetchOut ρ)
    (tickers : List τ) (p : Bool) :
    ((∃ t ∈ tickers, truthyData (fetch t).1 = true) →
      get_data fetch tickers p =
        Except.ok
          (((tickers.filter fun t => truthyData (fetch t).1).map
              (fun t => (fetch t).1.getD [])).flatten,
            (tickers.filter fun t => !truthyData (fetch t).1).map
              (fun t => (t, (fetch t).2)))) ∧
    ((∃ e, get_data fetch tickers p = Except.error e) ↔
      ∀ t ∈ tickers, truthyData (fetch t).1 = false) := by
  rw [get_data_as_filters]
  constructor
  · rintro ⟨t, ht, htr⟩
    have hmem : t ∈ tickers.filter fun t => truthyData (fetch t).1 :=
      List.mem_filter.mpr ⟨ht, htr⟩
    have hne : ¬ ((tickers.filter fun t => truthyData (fetch t).1).map
        (fun t => (fetch t).1.getD [])).isEmpty = true := by
      simp only [List.isEmpty_iff, List.map_eq_nil_iff]
      intro hnil
      rw [hnil] at hmem
      exact List.not_mem_nil t hmem
    rw [if_neg hne]
  · constructor
    · rintro ⟨e, he⟩
      by_cases hemp : ((tickers.filter fun t => truthyData (fetch t).1).map
          (fun t => (fetch t).1.getD [])).isEmpty = true
      · intro t ht
        by_contra htr
        have hmem : t ∈ tickers.filter fun t => truthyData (fetch t).1 :=
          List.mem_filter.mpr ⟨ht, by simpa using htr⟩
        simp only [List.isEmpty_iff, List.map_eq_nil_iff] at hemp
        rw [hemp] at hmem
        exact List.not_mem_nil t hmem
      · rw [if_neg hemp] at he
        exact absurd he (by simp)
    · intro hall
      refine ⟨"Could not retrieve data for any ticker", ?_⟩
      have hemp : ((tickers.filter fun t => truthyData (fetch t).1).map
          (fun t => (fetch t).1.getD [])).isEmpty = true := by
        simp only [List.isEmpty_iff, List.map_eq_nil_iff, List.filter_eq_nil_iff]
        intro t ht
        simp [hall t ht]
      rw [if_pos hemp]

/-- Concrete outcome map for the C2 witness: ticker 1 succeeds with one
record, ticker 2 fails with an HTTP error. -/
def c2Fetch : ℕ → FetchOut ℕ := fun t =>
  if t = 1 then (some [7], none) else (none, some "HTTP error 500")

theorem get_data_success_failure_witness :
    get_data c2Fetch [1, 2] true = Except.ok ([7], [(2, some "HTTP error 500")]) := by
  have h := (get_data_success_failure c2Fetch [1, 2] true).1
    ⟨1, by decide, by decide⟩
  rw [h]
  rfl

/-- C3: a cache entry is valid iff its file exists and its modification time
is within cache_expiry hours of now, with cache_expiry zero meaning never
expire; and a per-ticker fetch whose cache entry is valid and readable
returns exactly the cached content, with no error, no network call, no sleep
and no cache write. -/
theorem cache_valid_semantics {ρ : Type} (use_cache present : Bool) (cache_expiry : ℕ)
    (now mtime : ℚ) (content : Option (List ρ)) (max_retries : ℕ)
    (net : ℕ → NetResult ρ) (l : List ρ) :
    (is_cache_valid cache_expiry now mtime present = true ↔
      (present = true ∧ (cache_expiry = 0 ∨ now - (cache_expiry : ℚ) * 3600 < mtime))) ∧
    (use_cache = true → content = some l →
      is_cache_valid cache_expiry now mtime present = true →
      fetch_ticker_data use_cache cache_expiry now mtime present content max_retries net =
        ⟨some l, none, 0, 0, 0⟩) := by
  constructor
  · unfold is_cache_valid
    by_cases hp : present <;> by_cases he : cache_expiry = 0 <;> simp [hp, he]
  · intro hu hc hv
    simp [fetch_ticker_data, load_from_cache, hu, hv, hc]

theorem cache_valid_semantics_witness :
    fetch_ticker_data (ρ := ℕ) true 24 1000000 999000 true (some [42]) 3
      (fun _ => NetResult.reqErr "x") = ⟨some [42], none, 0, 0, 0⟩ :=
  (cache_valid_semantics true true 24 1000000 999000 (some [42]) 3
    (fun _ => NetResult.reqErr "x") [42]).2 rfl rfl (by norm_num [is_cache_valid])

/-- C10: during a per-ticker fetch attempt, an exception that is not a
transport RequestException — requests.get raising some other error, or the
response body failing to JSON-decode — makes the fetch return immediately
with an Unexpected error message and no data, performing no further attempt
and no backoff sleep, even when retry attempts remain. -/
theorem non_transport_error_aborts {ρ : Type} (use_cache present : Bool)
    (cache_expiry : ℕ) (now mtime : ℚ) (content : Option (List ρ))
    (max_retries : ℕ) (net : ℕ → NetResult ρ) (m : String)
    (hload : load_from_cache use_cache cache_expiry now mtime present content = none)
    (hmax : 1 ≤ max_retries) :
    (net 0 = NetResult.otherExn m →
      fetch_ticker_data use_cache cache_expiry now mtime present content max_retries net =
        ⟨none, some ("Unexpected error: " ++ m), 1, 0, 0⟩) ∧
    (net 0 = NetResult.resp 200 (Except.error m) →
      fetch_ticker_data use_cache cache_expiry now mtime present content max_retries net =
        ⟨none, some ("Unexpected error: " ++ m), 1, 0, 0⟩) := by
  obtain ⟨fuel, rfl⟩ : ∃ k, max_retries = k + 1 := ⟨max_retries - 1, by omega⟩
  constructor <;> intro h <;>
    simp [fetch_ticker_data, hload, fetchLoop, h]

theorem non_transport_error_aborts_witness :
    fetch_ticker_data (ρ := ℕ) false 24 0 0 false none 3
      (fun _ => NetResult.otherExn "boom") =
      ⟨none, some ("Unexpected error: " ++ "boom"), 1, 0, 0⟩ :=
  (non_transport_error_aborts false false 24 0 0 none 3
    (fun _ => NetResult.otherExn "boom") "boom" rfl (by decide)).1 rfl

/-! ### Fallback-source fetch (vnstock_helpers.py: safe_api_call)

safe_api_call runs up to max_retries primary (TCBS) attempts.  When an
attempt raises, the code lowers the error text and checks the rate-limit
flavor; only when the failing attempt is the first one (attempt == 0) AND
the error is rate-limit-flavored AND the stock symbol can be read off the
stock object does it issue exactly one immediate VCI call, returning its
result on success and falling through to the delayed retry logic on failure.
We model the outcome of primary attempt i by attempts i, the outcome of the
(at most one) VCI call by vciRes, and record the trace of calls and sleeps. -/

/-- Error raised by an API call: the str of the exception and the name of
the exception class. -/
structure ApiErr where
  msg : String
  typeName : String

/-- Membership of pat as a contiguous sublist, Python's in on strings. -/
def subListOf (pat : List Char) : List Char → Bool
  | [] => pat.isEmpty
  | c :: rest => pat.isPrefixOf (c :: rest) || subListOf pat rest

/-- Python str.lower (character-wise). -/
def strLower (s : String) : String := String.mk (s.toList.map Char.toLower)

/-- Python substring test pat in s. -/
def strHasSub (s pat : String) : Bool := subListOf pat.toList s.toList

/-- Rate-limit detection of safe_api_call, in source order: substring checks
on the lowered error text, the exception class name, and the tcbs check. -/
def isRateLimitErr (e : ApiErr) : Bool :=
  let es := strLower e.msg
  strHasSub es "rate" || strHasSub es "limit" || strHasSub es "quá nhiều request" ||
    (e.typeName == "RateLimitExceeded") || strHasSub es "tcbs"

/-- Actions safe_api_call can take, in order: a primary-source call for a
given attempt index, the alternate-source (VCI) call, a backoff sleep. -/
inductive ApiAct where
  | primary (attempt : ℕ)
  | vci
  | backoff
deriving DecidableEq

/-- Retry loop of safe_api_call.  fuel is the number of attempts left
(initially max_retries), a the current attempt index; the guard
attempt less than max_retries - 1 is fuel at least 2.  Result ok none models
Python falling off the loop (max_retries = 0). -/
def sacLoop {α : Type} (attempts : ℕ → Except ApiErr α) (vciRes : Except ApiErr α)
    (symbolKnown : Bool) : ℕ → ℕ → List ApiAct × Except ApiErr (Option α)
  | 0, _ => ([], Except.ok none)
  | fuel+1, a =>
    match attempts a with
    | Except.ok r => ([ApiAct.primary a], Except.ok (some r))
    | Except.error e =>
      if a = 0 ∧ isRateLimitErr e = true then
        if symbolKnown then
          match vciRes with
          | Except.ok r => ([ApiAct.primary a, ApiAct.vci], Except.ok (some r))
          | Except.error _ =>
            if 1 ≤ fuel then
              let rest := sacLoop attempts vciRes symbolKnown fuel (a+1)
              (ApiAct.primary a :: ApiAct.vci :: ApiAct.backoff :: rest.1, rest.2)
            else ([ApiAct.primary a, ApiAct.vci], Except.error e)
        else
          if 1 ≤ fuel then
            let rest := sacLoop attempts vciRes symbolKnown fuel (a+1)
            (ApiAct.primary a :: ApiAct.backoff :: rest.1, rest.2)
          else ([ApiAct.primary a], Except.error e)
      else
        if 1 ≤ fuel then
          let rest := sacLoop attempts vciRes symbolKnown fuel (a+1)
          (ApiAct.primary a :: ApiAct.backoff :: rest.1, rest.2)
        else ([ApiAct.primary a], Except.error e)

/-- vnstock_helpers.safe_api_call as a trace plus final outcome. -/
def safe_api_call {α : Type} (attempts : ℕ → Except ApiErr α) (vciRes : Except ApiErr α)
    (symbolKnown : Bool) (maxRetries : ℕ) : List ApiAct × Except ApiErr (Option α) :=
  sacLoop attempts vciRes symbolKnown maxRetries 0

/-- Condition under which the code actually performs the VCI call: the first
attempt fails with a rate-limit-flavored error and the symbol is readable
off the stock object. -/
def vciTriggered {α : Type} (attempts : ℕ → Except ApiErr α) (symbolKnown : Bool) : Bool :=
  symbolKnown &&
    match attempts 0 with
    | Except.ok _ => false
    | Except.error e => isRateLimitErr e

theorem sacLoop_vci_count_zero {α : Type} (attempts : ℕ → Except ApiErr α)
    (vciRes : Except ApiErr α) (symbolKnown : Bool) :
    ∀ fuel a, 1 ≤ a →
      (sacLoop attempts vciRes symbolKnown fuel a).1.count ApiAct.vci = 0 := by
  intro fuel
  induction fuel with
  | zero => intro a _; simp [sacLoop]
  | succ fuel ih =>
    intro a ha
    cases h : attempts a with
    | ok r => simp [sacLoop, h]
    | error e =>
      have hne : ¬(a = 0 ∧ isRateLimitErr e = true) := fun hc => by omega
      by_cases hf : 1 ≤ fuel
      · simp [sacLoop, h, hne, hf, ih (a+1) (by omega)]
      · simp [sacLoop, h, hne, hf]

/-- Concrete attempt outcomes refuting C5: the first attempt fails with a
plain error, the second with a rate-limit error, the third succeeds. -/
def c5Attempts : ℕ → Except ApiErr ℚ := fun a =>
  if a = 0 then Except.error ⟨"boom", "ValueError"⟩
  else if a = 1 then Except.error ⟨"rate limit exceeded", "RateLimitExceeded"⟩
  else Except.ok 5

/-- C5 counterexample: with the outcomes of c5Attempts, a rate-limit-flavored
error occurs on the second attempt and the very first attempt fails with an
error — the claim demands an immediate VCI call in either situation — yet
the code performs no VCI call at all: the fallback fires only when the first
attempt itself fails with a rate-limit-flavored error. -/
theorem safe_api_call_fallback_counterexample :
    (safe_api_call c5Attempts (Except.ok 99) true 3).1.count ApiAct.vci = 0 ∧
    (∃ e, c5Attempts 0 = Except.error e ∧ isRateLimitErr e = false) ∧
    (∃ e, c5Attempts 1 = Except.error e ∧ isRateLimitErr e = true) := by
  refine ⟨?_, ⟨⟨"boom", "ValueError"⟩, rfl, ?_⟩, ⟨⟨"rate limit exceeded", "RateLimitExceeded"⟩, rfl, ?_⟩⟩
  · decide
  · decide
  · decide

/-- C5 (amended): the alternate-source (VCI) call happens exactly when the
very first attempt fails with a rate-limit-flavored error (text containing
rate, limit, quá nhiều request or tcbs, or exception class RateLimitExceeded)
and the stock symbol is determinable, and then exactly one VCI call is made;
a failure of that VCI call does not abort the retry loop but falls through
to the delayed-retry loop (re-raising the original error when no retry
attempt remains). -/
theorem safe_api_call_fallback_amended {α : Type} (attempts : ℕ → Except ApiErr α)
    (vciRes : Except ApiErr α) (symbolKnown : Bool) (maxRetries : ℕ)
    (hmax : 1 ≤ maxRetries) :
    ((safe_api_call attempts vciRes symbolKnown maxRetries).1.count ApiAct.vci =
      if vciTriggered attempts symbolKnown then 1 else 0) ∧
    (∀ e e', attempts 0 = Except.error e → isRateLimitErr e = true →
      symbolKnown = true → vciRes = Except.error e' →
      (2 ≤ maxRetries →
        (safe_api_call attempts vciRes symbolKnown maxRetries).2 =
          (sacLoop attempts vciRes symbolKnown (maxRetries - 1) 1).2) ∧
      (maxRetries = 1 →
        (safe_api_call attempts vciRes symbolKnown maxRetries).2 = Except.error e)) := by
  obtain ⟨fuel, rfl⟩ : ∃ k, maxRetries = k + 1 := ⟨maxRetries - 1, by omega⟩
  constructor
  · cases h : attempts 0 with
    | ok r => simp [safe_api_call, sacLoop, h, vciTriggered]
    | error e =>
      by_cases hrl : isRateLimitErr e = true
      · cases hs : symbolKnown with
        | false => -- no VCI call possible
          by_cases hf : 1 ≤ fuel <;>
            simp [safe_api_call, sacLoop, h, hrl, hs, hf, vciTriggered,
              sacLoop_vci_count_zero attempts vciRes false fuel 1 (by omega)]
        | true =>
          cases hv : vciRes with
          | ok r => simp [safe_api_call, sacLoop, h, hrl, hs, hv, vciTriggered]
          | error e' =>
            by_cases hf : 1 ≤ fuel <;>
              simp [safe_api_call, sacLoop, h, hrl, hs, hv, hf, vciTriggered,
                sacLoop_vci_count_zero attempts (Except.error e') true fuel 1 (by omega)]
      · by_cases hf : 1 ≤ fuel <;>
          simp [safe_api_call, sacLoop, h, hrl, hf, vciTriggered,
            sacLoop_vci_count_zero attempts vciRes symbolKnown fuel 1 (by omega)]
  · intro e e' h hrl hs hv
    constructor
    · intro h2
      have hf : 1 ≤ fuel := by omega
      simp [safe_api_call, sacLoop, h, hrl, hs, hv, hf]
    · intro h1
      have hf : fuel = 0 := by omega
      subst hf
      simp [safe_api_call, sacLoop, h, hrl, hs, hv]

/-- Concrete attempt outcomes for the C5 witness: the first attempt fails
with a rate-limit error. -/
def c5wAttempts : ℕ → Except ApiErr ℚ := fun a =>
  if a = 0 then Except.error ⟨"API rate limit exceeded", "RateLimitExceeded"⟩
  else Except.ok 7

theorem safe_api_call_fallback_amended_witness :
    (safe_api_call c5wAttempts (Except.ok 9) true 3).1.count ApiAct.vci = 1 := by
  have h := (safe_api_call_fallback_amended c5wAttempts (Except.ok 9) true 3 (by decide)).1
  rw [h]
  decide

/-! ### Alternate-source column normalization
(vnstock_helpers.py: _get_single_period_data, column section)

A DataFrame is an ordered association list from column name to column
values.  The code walks the five required lowercase names; for each absent
one it copies the first present alias from a fixed dictionary, then
synthesizes Adj Close from adjClose, adj_close or close in that order
(a KeyError when close is also absent is caught by the surrounding try,
making the whole helper return None), and finally renames the lowercase
names to Title case. -/

/-- DataFrame columns as an ordered association list. -/
abbrev Frame := List (String × List ℚ)

/-- Column-membership test, Python's col in data.columns. -/
def hasCol (f : Frame) (c : String) : Bool := f.any (fun p => p.1 == c)

/-- Column read: first column with the given name. -/
def getCol (f : Frame) (c : String) : Option (List ℚ) :=
  (f.find? (fun p => p.1 == c)).map (fun p => p.2)

/-- pandas column assignment: overwrite an existing column in place, or
append a new one at the end. -/
def setCol (f : Frame) (c : String) (v : List ℚ) : Frame :=
  if hasCol f c then f.map (fun p => if p.1 == c then (c, v) else p)
  else f ++ [(c, v)]

/-- Alias dictionary possible_names of _get_single_period_data. -/
def possible_names (c : String) : List String :=
  if c = "open" then ["Open", "OPEN"]
  else if c = "high" then ["High", "HIGH"]
  else if c = "low" then ["Low", "LOW"]
  else if c = "close" then ["Close", "CLOSE"]
  else if c = "volume" then ["Volume", "VOLUME", "vol"]
  else []

/-- The required lowercase columns, in loop order. -/
def required_columns : List String := ["open", "high", "low", "close", "volume"]

/-- One iteration of the alias-matching loop: when column c is absent, copy
the first present alias; the break in the source keeps only the first. -/
def fillStep (f : Frame) (c : String) : Frame :=
  if hasCol f c then f
  else
    match (possible_names c).find? (fun n => hasCol f n) with
    | some n => setCol f c ((getCol f n).getD [])
    | none => f

/-- The whole alias-matching loop over the required columns. -/
def fillAliases (f : Frame) : Frame := required_columns.foldl fillStep f

/-- Adj Close synthesis: adjClose, else adj_close, else close; none models
the KeyError path when close is also absent. -/
def setAdjClose (f : Frame) : Option Frame :=
  if hasCol f "adjClose" then some (setCol f "Adj Close" ((getCol f "adjClose").getD []))
  else if hasCol f "adj_close" then some (setCol f "Adj Close" ((getCol f "adj_close").getD []))
  else if hasCol f "close" then some (setCol f "Adj Close" ((getCol f "close").getD []))
  else none

/-- Final rename of the lowercase OHLCV names to Title case. -/
def renameKey (c : String) : String :=
  if c = "open" then "Open"
  else if c = "high" then "High"
  else if c = "low" then "Low"
  else if c = "close" then "Close"
  else if c = "volume" then "Volume"
  else c

/-- pandas rename over the column axis. -/
def renameCols (f : Frame) : Frame := f.map (fun p => (renameKey p.1, p.2))

/-- Column-normalization section of _get_single_period_data, in source
order: alias fill, Adj Close synthesis, rename. -/
def normalizeCols (f : Frame) : Option Frame :=
  (setAdjClose (fillAliases f)).map renameCols

/-! Helper lemmas about frames. -/

theorem getCol_cons (p : String × List ℚ) (ps : Frame) (c : String) :
    getCol (p :: ps) c = if (p.1 == c) then some p.2 else getCol ps c := by
  unfold getCol
  cases h : (p.1 == c) <;> simp [List.find?_cons, h]

theorem hasCol_cons (p : String × List ℚ) (ps : Frame) (c : String) :
    hasCol (p :: ps) c = ((p.1 == c) || hasCol ps c) := by
  simp [hasCol]

theorem getCol_append_one (f : Frame) (c c' : String) (v : List ℚ) (h : ¬ c = c') :
    getCol (f ++ [(c', v)]) c = getCol f c := by
  induction f with
  | nil =>
    have h1 : (c' == c) = false := beq_eq_false_iff_ne.mpr (fun hh => h hh.symm)
    simp [getCol_cons, h1, getCol]
  | cons p ps ih => rw [List.cons_append, getCol_cons, getCol_cons, ih]

theorem getCol_overwrite (f : Frame) (c c' : String) (v : List ℚ) (h : ¬ c = c') :
    getCol (f.map (fun p => if p.1 == c' then (c', v) else p)) c = getCol f c := by
  induction f with
  | nil => rfl
  | cons p ps ih =>
    by_cases hp : p.1 = c'
    · have h1 : (c' == c) = false := beq_eq_false_iff_ne.mpr (fun hh => h hh.symm)
      have h2 : (p.1 == c) = false := by rw [hp]; exact h1
      simp only [List.map_cons, hp, beq_self_eq_true, if_true, getCol_cons, h1, h2,
        if_false, Bool.false_eq_true, ih]
    · have h2 : (p.1 == c') = false := beq_eq_false_iff_ne.mpr hp
      simp only [List.map_cons, h2, Bool.false_eq_true, if_false, getCol_cons, ih]

theorem getCol_setCol_ne (f : Frame) (c c' : String) (v : List ℚ) (h : ¬ c = c') :
    getCol (setCol f c' v) c = getCol f c := by
  unfold setCol
  by_cases hc : hasCol f c'
  · rw [if_pos hc]; exact getCol_overwrite f c c' v h
  · rw [if_neg hc]; exact getCol_append_one f c c' v h

theorem getCol_setCol_self (f : Frame) (c : String) (v : List ℚ) :
    getCol (setCol f c v) c = some v := by
  unfold setCol
  by_cases hc : hasCol f c
  · rw [if_pos hc]
    induction f with
    | nil => simp [hasCol] at hc
    | cons p ps ih =>
      by_cases hp : p.1 = c
      · have h2 : (p.1 == c) = true := beq_iff_eq.mpr hp
        simp [getCol_cons, h2, hp]
      · have h2 : (p.1 == c) = false := beq_eq_false_iff_ne.mpr hp
        rw [hasCol_cons, h2, Bool.false_or] at hc
        simp only [List.map_cons, h2, Bool.false_eq_true, if_false, getCol_cons, ih hc]
  · rw [if_neg hc]
    induction f with
    | nil => simp [getCol_cons]
    | cons p ps ih =>
      rw [hasCol_cons, Bool.or_eq_true, not_or] at hc
      have h2 : (p.1 == c) = false := by
        cases h3 : (p.1 == c)
        · rfl
        · exact absurd h3 hc.1
      rw [List.cons_append, getCol_cons, h2]
      simp only [Bool.false_eq_true, if_false]
      exact ih (by simpa using hc.2)

theorem hasCol_append_one (f : Frame) (c c' : String) (v : List ℚ) (h : ¬ c = c') :
    hasCol (f ++ [(c', v)]) c = hasCol f c := by
  have h1 : (c' == c) = false := beq_eq_false_iff_ne.mpr (fun hh => h hh.symm)
  simp [hasCol, List.any_append, h1]

theorem hasCol_overwrite (f : Frame) (c c' : String) (v : List ℚ) (h : ¬ c = c') :
    hasCol (f.map (fun p => if p.1 == c' then (c', v) else p)) c = hasCol f c := by
  induction f with
  | nil => rfl
  | cons p ps ih =>
    by_cases hp : p.1 = c'
    · have h1 : (c' == c) = false := beq_eq_false_iff_ne.mpr (fun hh => h hh.symm)
      have h2 : (p.1 == c) = false := by rw [hp]; exact h1
      simp only [List.map_cons, hp, beq_self_eq_true, if_true, hasCol_cons, h1, h2, ih]
    · have h2 : (p.1 == c') = false := beq_eq_false_iff_ne.mpr hp
      simp only [List.map_cons, h2, Bool.false_eq_true, if_false, hasCol_cons, ih]

theorem hasCol_setCol_ne (f : Frame) (c c' : String) (v : List ℚ) (h : ¬ c = c') :
    hasCol (setCol f c' v) c = hasCol f c := by
  unfold setCol
  by_cases hc : hasCol f c'
  · rw [if_pos hc]; exact hasCol_overwrite f c c' v h
  · rw [if_neg hc]; exact hasCol_append_one f c c' v h

theorem getCol_isSome_of_hasCol (f : Frame) (c : String) (h : hasCol f c = true) :
    ∃ v, getCol f c = some v := by
  unfold hasCol at h
  rw [List.any_eq_true] at h
  obtain ⟨p, hp, hpc⟩ := h
  have hs : (f.find? (fun p => p.1 == c)).isSome = true := by
    rw [List.find?_isSome]
    exact ⟨p, hp, hpc⟩
  obtain ⟨q, hq⟩ := Option.isSome_iff_exists.mp hs
  exact ⟨q.2, by unfold getCol; rw [hq]; rfl⟩

theorem fillStep_getCol_ne (f : Frame) (c c' : String) (h : ¬ c = c') :
    getCol (fillStep f c') c = getCol f c := by
  unfold fillStep
  by_cases hc : hasCol f c'
  · rw [if_pos hc]
  · rw [if_neg hc]
    cases hf : (possible_names c').find? (fun n => hasCol f n)
    · rfl
    · exact getCol_setCol_ne f c c' _ h

theorem fillStep_hasCol_ne (f : Frame) (c c' : String) (h : ¬ c = c') :
    hasCol (fillStep f c') c = hasCol f c := by
  unfold fillStep
  by_cases hc : hasCol f c'
  · rw [if_pos hc]
  · rw [if_neg hc]
    cases hf : (possible_names c').find? (fun n => hasCol f n)
    · rfl
    · exact hasCol_setCol_ne f c c' _ h

theorem fillStep_getCol_self (f : Frame) (c : String) :
    getCol (fillStep f c) c =
      (if hasCol f c then getCol f c
       else
        match (possible_names c).find? (fun n => hasCol f n) with
        | some n => some ((getCol f n).getD [])
        | none => getCol f c) := by
  unfold fillStep
  by_cases hc : hasCol f c
  · rw [if_pos hc, if_pos hc]
  · rw [if_neg hc, if_neg hc]
    cases hf : (possible_names c).find? (fun n => hasCol f n)
    · rfl
    · exact getCol_setCol_self f c _

theorem foldl_fillStep_getCol_ne (ds : List String) :
    ∀ (g : Frame) (c : String), c ∉ ds →
      getCol (ds.foldl fillStep g) c = getCol g c := by
  induction ds with
  | nil => intro g c _; rfl
  | cons d ds ih =>
    intro g c hc
    rw [List.mem_cons, not_or] at hc
    rw [List.foldl_cons, ih _ _ hc.2, fillStep_getCol_ne g c d hc.1]

theorem find?_hasCol_congr (ns : List String) (f g : Frame)
    (h : ∀ n ∈ ns, hasCol g n = hasCol f n) :
    ns.find? (fun n => hasCol g n) = ns.find? (fun n => hasCol f n) := by
  induction ns with
  | nil => rfl
  | cons n ns ih =>
    have hn := h n (List.mem_cons_self n ns)
    rw [List.find?_cons, List.find?_cons, hn]
    cases hf : hasCol f n
    · exact ih (fun m hm => h m (List.mem_cons_of_mem n hm))
    · rfl

theorem foldl_fillStep_char (cs : List String) :
    ∀ (f : Frame) (c : String), c ∈ cs → cs.Nodup →
      (∀ c' ∈ cs, ∀ n ∈ possible_names c, ¬ n = c') →
      getCol (cs.foldl fillStep f) c =
        (if hasCol f c then getCol f c
         else
          match (possible_names c).find? (fun n => hasCol f n) with
          | some n => some ((getCol f n).getD [])
          | none => getCol f c) := by
  induction cs with
  | nil => intro f c hc _ _; exact absurd hc (List.not_mem_nil c)
  | cons d ds ih =>
    intro f c hc hnd hsep
    rw [List.foldl_cons]
    rcases List.mem_cons.mp hc with rfl | hcds
    · have hcd : c ∉ ds := (List.nodup_cons.mp hnd).1
      rw [foldl_fillStep_getCol_ne ds (fillStep f c) c hcd, fillStep_getCol_self]
    · have hnd' := (List.nodup_cons.mp hnd).2
      have hsep' : ∀ c' ∈ ds, ∀ n ∈ possible_names c, ¬ n = c' :=
        fun c' hc' n hn => hsep c' (List.mem_cons_of_mem d hc') n hn
      have hcd : ¬ c = d := fun hh => (List.nodup_cons.mp hnd).1 (hh ▸ hcds)
      rw [ih (fillStep f d) c hcds hnd' hsep']
      have hhc : hasCol (fillStep f d) c = hasCol f c := fillStep_hasCol_ne f c d hcd
      have hfind : (possible_names c).find? (fun n => hasCol (fillStep f d) n) =
          (possible_names c).find? (fun n => hasCol f n) :=
        find?_hasCol_congr _ _ _ (fun n hn =>
          fillStep_hasCol_ne f n d (hsep d (List.mem_cons_self d ds) n hn))
      rw [hhc, hfind]
      by_cases hfc : hasCol f c
      · rw [if_pos hfc, if_pos hfc, fillStep_getCol_ne f c d hcd]
      · rw [if_neg hfc, if_neg hfc]
        cases hf2 : (possible_names c).find? (fun n => hasCol f n) with
        | none =>
          show getCol (fillStep f d) c = getCol f c
          exact fillStep_getCol_ne f c d hcd
        | some n =>
          have hn : n ∈ possible_names c := List.mem_of_find?_eq_some hf2
          show some ((getCol (fillStep f d) n).getD []) = some ((getCol f n).getD [])
          rw [fillStep_getCol_ne f n d (hsep d (List.mem_cons_self d ds) n hn)]

theorem renameKey_fixes_adj (k : String) : renameKey k = "Adj Close" ↔ k = "Adj Close" := by
  constructor
  · intro h
    unfold renameKey at h
    split_ifs at h with h1 h2 h3 h4 h5
    · exact absurd h (by decide)
    · exact absurd h (by decide)
    · exact absurd h (by decide)
    · exact absurd h (by decide)
    · exact absurd h (by decide)
    · exact h
  · intro h
    subst h
    decide

theorem getCol_renameCols_adj (h : Frame) :
    getCol (renameCols h) "Adj Close" = getCol h "Adj Close" := by
  unfold renameCols getCol
  rw [List.find?_map]
  have hcong : ((fun p : String × List ℚ => p.1 == "Adj Close") ∘
      (fun p : String × List ℚ => (renameKey p.1, p.2))) =
      fun p : String × List ℚ => p.1 == "Adj Close" := by
    funext p
    apply Bool.eq_iff_iff.mpr
    simp only [Function.comp_apply, beq_iff_eq]
    exact renameKey_fixes_adj p.1
  rw [hcong]
  cases hf : h.find? (fun p => p.1 == "Adj Close") <;> rfl

/-- Frame refuting the case-insensitivity of C8: the only open-like column
is spelled oPen, which is neither open nor an alias in the dictionary. -/
def c8Frame : Frame :=
  [("oPen", [1]), ("high", [2]), ("low", [3]), ("close", [4]), ("volume", [5])]

/-- C8 counterexample: c8Frame contains a column whose lowercased name is
open, yet the normalized result has no Open column at all — the matching is
against the fixed alias spellings Open and OPEN only, not case-insensitive. -/
theorem normalize_not_case_insensitive :
    (∃ p ∈ c8Frame, strLower p.1 = "open") ∧
    (normalizeCols c8Frame).map (fun g => hasCol g "Open") = some false := by
  refine ⟨⟨("oPen", [1]), by decide, by decide⟩, by decide⟩

/-- C8 (amended): for every alternate-source result table, the normalizer
matches each absent lowercase OHLCV column name against its fixed,
case-sensitive alias list — the Title-case and UPPER-case spellings, plus
vol for volume — copying the first present alias and leaving already-present
columns unchanged; and the Adj Close column of the normalized result is the
adjClose column of the alias-filled table if present, otherwise adj_close if
present, otherwise close, in that preference order (the normalizer fails
when none of the three is present). -/
theorem normalize_aliases_amended (f : Frame) :
    (∀ c ∈ required_columns,
      getCol (fillAliases f) c =
        (if hasCol f c then getCol f c
         else
          match (possible_names c).find? (fun n => hasCol f n) with
          | some n => some ((getCol f n).getD [])
          | none => getCol f c)) ∧
    (∀ g, normalizeCols f = some g →
      getCol g "Adj Close" =
        (if hasCol (fillAliases f) "adjClose" then getCol (fillAliases f) "adjClose"
         else if hasCol (fillAliases f) "adj_close" then getCol (fillAliases f) "adj_close"
         else getCol (fillAliases f) "close")) ∧
    (normalizeCols f = none ↔
      hasCol (fillAliases f) "adjClose" = false ∧
      hasCol (fillAliases f) "adj_close" = false ∧
      hasCol (fillAliases f) "close" = false) := by
  refine ⟨?_, ?_, ?_⟩
  · intro c hc
    have hc' : c ∈ required_columns := hc
    simp only [required_columns, List.mem_cons, List.not_mem_nil, or_false] at hc'
    rcases hc' with rfl | rfl | rfl | rfl | rfl <;>
      exact foldl_fillStep_char required_columns f _ hc (by decide) (by decide)
  · intro g hg
    unfold normalizeCols at hg
    rw [Option.map_eq_some'] at hg
    obtain ⟨h, hset, rfl⟩ := hg
    rw [getCol_renameCols_adj]
    unfold setAdjClose at hset
    split_ifs at hset with h1 h2 h3
    · rw [if_pos h1]
      obtain ⟨v, hv⟩ := getCol_isSome_of_hasCol _ _ h1
      simp only [Option.some.injEq] at hset
      rw [← hset, getCol_setCol_self, hv]
      rfl
    · rw [if_neg h1, if_pos h2]
      obtain ⟨v, hv⟩ := getCol_isSome_of_hasCol _ _ h2
      simp only [Option.some.injEq] at hset
      rw [← hset, getCol_setCol_self, hv]
      rfl
    · rw [if_neg h1, if_neg h2]
      obtain ⟨v, hv⟩ := getCol_isSome_of_hasCol _ _ h3
      simp only [Option.some.injEq] at hset
      rw [← hset, getCol_setCol_self, hv]
      rfl
  · unfold normalizeCols setAdjClose
    split_ifs with h1 h2 h3 <;> simp_all

/-- Frame for the C8 witness: open is absent but its alias Open is present,
adjClose is absent but adj_close is present. -/
def c8wFrame : Frame :=
  [("Open", [10]), ("adj_close", [11]), ("close", [12]),
   ("high", [1]), ("low", [2]), ("volume", [3])]

theorem normalize_aliases_amended_witness :
    getCol (fillAliases c8wFrame) "open" = some [10] := by
  have h := (normalize_aliases_amended c8wFrame).1 "open" (by decide)
  rw [h]
  decide

/-! ### Returns calculation (vndirect.py: VNDirectClient.calculate_returns;
vnstock_helpers.py: calculate_returns_vnstock)

The two functions are line-for-line identical: copy the OHLCV table, sort
it by its (Symbol, Date) index, then add the four columns
groupby(Symbol)(Adj Close).pct_change(periods) for periods 1, 5, 20, 120.
Grouped pct_change computes, for each row, the relative change against the
P-th previous row with the same symbol in the sorted order.  Floats are
rationals; a pandas NaN entry is none. -/

/-- Normalized OHLCV row; symbols and dates are naturals so that the
(Symbol, Date) index is linearly ordered. -/
structure PriceRow where
  symbol : ℕ
  date : ℕ
  openPrice : ℚ
  highPrice : ℚ
  lowPrice : ℚ
  closePrice : ℚ
  adjClose : ℚ
  volume : ℚ
deriving DecidableEq

/-- Row of the returns table: the OHLCV row plus exactly the four derived
columns 1d, 1w, 1m, 6m. -/
structure RetRow where
  base : PriceRow
  r1d : Option ℚ
  r1w : Option ℚ
  r1m : Option ℚ
  r6m : Option ℚ
deriving DecidableEq

/-- pandas sort_index on the (Symbol, Date) multi-index: lexicographic. -/
def sortTable (t : List PriceRow) : List PriceRow :=
  t.mergeSort (fun a b =>
    decide (a.symbol < b.symbol ∨ (a.symbol = b.symbol ∧ a.date ≤ b.date)))

/-- Adj Close of the P-th previous row with the given symbol among the rows
already processed (pre, in sorted order): how grouped shift sees one row. -/
def prevAdj (pre : List PriceRow) (sym : ℕ) (P : ℕ) : Option ℚ :=
  ((pre.reverse.filter (fun x => x.symbol == sym))[P - 1]?).map PriceRow.adjClose

/-- Grouped pct_change with period P at one row. -/
def pctChangeAt (pre : List PriceRow) (r : PriceRow) (P : ℕ) : Option ℚ :=
  (prevAdj pre r.symbol P).map (fun p => (r.adjClose - p) / p)

/-- Worker adding the four return columns row by row; pre accumulates the
rows already passed, in order. -/
def addReturns (pre : List PriceRow) : List PriceRow → List RetRow
  | [] => []
  | r :: rest =>
    ⟨r, pctChangeAt pre r 1, pctChangeAt pre r 5,
      pctChangeAt pre r 20, pctChangeAt pre r 120⟩ :: addReturns (pre ++ [r]) rest

/-- calculate_returns and calculate_returns_vnstock: sort by (Symbol, Date),
then compute the grouped pct_change columns for periods 1, 5, 20, 120. -/
def calculate_returns (t : List PriceRow) : List RetRow :=
  addReturns [] (sortTable t)

/-- Position of the row at sorted index i inside its symbol's group: the
number of earlier sorted rows with the same symbol. -/
def groupPos (s : List PriceRow) (sym : ℕ) (i : ℕ) : ℕ :=
  ((s.take i).filter (fun x => x.symbol == sym)).length

/-- Specification-side definition of the period-P return, following the
spec's words: with j the position of row r (at sorted index i) within its
symbol group and a the group's Adj Close sequence, the value is
(a j - a (j-P)) / a (j-P) when j is at least P, and undefined otherwise. -/
def retSpec (t : List PriceRow) (r : PriceRow) (i P : ℕ) : Option ℚ :=
  if P ≤ groupPos (sortTable t) r.symbol i then
    (((sortTable t).filter (fun x => x.symbol == r.symbol))[groupPos (sortTable t) r.symbol i - P]?).map
      (fun p => (r.adjClose - p.adjClose) / p.adjClose)
  else none

theorem addReturns_length (l : List PriceRow) : ∀ pre, (addReturns pre l).length = l.length := by
  induction l with
  | nil => intro pre; rfl
  | cons r rest ih => intro pre; simp [addReturns, ih]

theorem addReturns_getElem (l : List PriceRow) : ∀ (pre : List PriceRow) (i : ℕ),
    (addReturns pre l)[i]? =
      (l[i]?).map (fun r =>
        ⟨r, pctChangeAt (pre ++ l.take i) r 1, pctChangeAt (pre ++ l.take i) r 5,
          pctChangeAt (pre ++ l.take i) r 20, pctChangeAt (pre ++ l.take i) r 120⟩) := by
  induction l with
  | nil => intro pre i; simp [addReturns]
  | cons r rest ih =>
    intro pre i
    cases i with
    | zero => simp [addReturns]
    | succ i =>
      simp only [addReturns, List.getElem?_cons_succ, ih (pre ++ [r]) i,
        List.take_succ_cons, List.append_assoc, List.singleton_append]

theorem take_filter_getElem (s : List PriceRow) (i : ℕ) (r : PriceRow) (P : ℕ)
    (_hi : s[i]? = some r) (hP : 1 ≤ P) :
    ((s.take i).reverse.filter (fun x => x.symbol == r.symbol))[P - 1]? =
      (if P ≤ groupPos s r.symbol i then
        (s.filter (fun x => x.symbol == r.symbol))[groupPos s r.symbol i - P]?
       else none) := by
  rw [List.filter_reverse]
  by_cases hle : P ≤ groupPos s r.symbol i
  · have hlen : groupPos s r.symbol i =
        ((s.take i).filter (fun x => x.symbol == r.symbol)).length := rfl
    have h1 : P - 1 < ((s.take i).filter (fun x => x.symbol == r.symbol)).length := by
      rw [← hlen]; omega
    rw [List.getElem?_reverse h1, if_pos hle]
    have harith : ((s.take i).filter (fun x => x.symbol == r.symbol)).length - 1 - (P - 1) =
        groupPos s r.symbol i - P := by rw [← hlen]; omega
    rw [harith]
    have hsplit : s.filter (fun x => x.symbol == r.symbol) =
        (s.take i).filter (fun x => x.symbol == r.symbol) ++
          (s.drop i).filter (fun x => x.symbol == r.symbol) := by
      rw [← List.filter_append, List.take_append_drop]
    rw [hsplit, List.getElem?_append]
    rw [if_pos (by rw [← hlen]; omega)]
  · rw [if_neg hle]
    apply List.getElem?_eq_none
    rw [List.length_reverse]
    have hlen : groupPos s r.symbol i =
        ((s.take i).filter (fun x => x.symbol == r.symbol)).length := rfl
    omega

theorem pctChangeAt_eq_retSpec (t : List PriceRow) (i : ℕ) (r : PriceRow) (P : ℕ)
    (hP : 1 ≤ P) (hi : (sortTable t)[i]? = some r) :
    pctChangeAt ((sortTable t).take i) r P = retSpec t r i P := by
  unfold pctChangeAt prevAdj retSpec
  rw [take_filter_getElem (sortTable t) i r P hi hP]
  by_cases hle : P ≤ groupPos (sortTable t) r.symbol i
  · rw [if_pos hle, if_pos hle, Option.map_map]
    rfl
  · rw [if_neg hle, if_neg hle]
    rfl

/-- C1: for every OHLCV table, the returns calculation keeps the row count,
pairs each output row with the corresponding row of the sorted input (so the
only additions are the four new columns of the RetRow record), and the
period-P column at sorted position i — P among 1, 5, 20, 120 for 1d, 1w,
1m, 6m — holds (a j - a (j-P)) / a (j-P) over its symbol group's Adj Close
sequence a at group position j, being undefined (none) when j is below P. -/
theorem calculate_returns_spec (t : List PriceRow) :
    (calculate_returns t).length = t.length ∧
    (∀ i r', (calculate_returns t)[i]? = some r' →
      (sortTable t)[i]? = some r'.base ∧
      r'.r1d = retSpec t r'.base i 1 ∧
      r'.r1w = retSpec t r'.base i 5 ∧
      r'.r1m = retSpec t r'.base i 20 ∧
      r'.r6m = retSpec t r'.base i 120) := by
  constructor
  · unfold calculate_returns
    rw [addReturns_length]
    unfold sortTable
    exact List.length_mergeSort t
  · intro i r' hr'
    unfold calculate_returns at hr'
    rw [addReturns_getElem] at hr'
    rw [Option.map_eq_some'] at hr'
    obtain ⟨r, hs, hr⟩ := hr'
    subst hr
    simp only [List.nil_append]
    exact ⟨hs, pctChangeAt_eq_retSpec t i r 1 (by omega) hs,
      pctChangeAt_eq_retSpec t i r 5 (by omega) hs,
      pctChangeAt_eq_retSpec t i r 20 (by omega) hs,
      pctChangeAt_eq_retSpec t i r 120 (by omega) hs⟩

/-- Demo row for the C1 witness: one symbol, given date and Adj Close. -/
def demoRow (d : ℕ) (a : ℚ) : PriceRow := ⟨0, d, 0, 0, 0, 0, a, 0⟩

/-- Demo table of the C1 witness: spec example Adj Close 100, 110, 121. -/
def demoT : List PriceRow := [demoRow 0 100, demoRow 1 110, demoRow 2 121]

theorem calculate_returns_spec_witness :
    (calculate_returns demoT).length = 3 ∧
    ∃ r', (calculate_returns demoT)[2]? = some r' ∧ r'.r1d = some (1/10) := by
  have h := calculate_returns_spec demoT
  have hsort : sortTable demoT = demoT := by
    unfold sortTable
    exact List.mergeSort_of_sorted (by decide)
  have hlen : (calculate_returns demoT).length = 3 := by rw [h.1]; rfl
  refine ⟨hlen, ?_⟩
  cases hx : (calculate_returns demoT)[2]? with
  | none =>
    exfalso
    have h2 : 2 < (calculate_returns demoT).length := by omega
    rw [List.getElem?_eq_getElem h2] at hx
    exact Option.noConfusion hx
  | some r' =>
    refine ⟨r', rfl, ?_⟩
    have hcomp := h.2 2 r' hx
    have hb : demoT[2]? = some r'.base := by rw [← hsort]; exact hcomp.1
    have hbase : r'.base = demoRow 2 121 := by
      have hval : demoT[2]? = some (demoRow 2 121) := rfl
      exact (Option.some.inj (hval.symm.trans hb)).symm
    rw [hcomp.2.1, hbase]
    unfold retSpec groupPos
    rw [hsort]
    norm_num [demoT, demoRow]

end Stockbox
